import Mathlib

/- Formal model of KhojDaSearch (src/main.py): the indexing engine
   (`FileIndexer`) and the query engine (`SearchBar.search`) over the shared
   SQLite store, embedded as pure executable Lean functions, together with
   proofs about the spec's claims on progress reporting, cancellation,
   upsert semantics, estimation and query semantics. -/

set_option maxRecDepth 8000

/-- One row of the `files` table (src/main.py:73-83).  The auto-assigned
`id INTEGER PRIMARY KEY` is represented by list position: SQLite
`INSERT OR REPLACE` deletes the conflicting row and appends a fresh row with a
new `id`, so the store is a list in rowid order. -/
structure Row where
  name : String
  path : String
  type : String
  size : Nat
  modified_date : String
deriving DecidableEq

/-- Model of `INSERT OR REPLACE INTO files (name, path, type, size, modified_date)`
with `UNIQUE(path)` (src/main.py:128-131): every row with the same `path` is
deleted and the new row is inserted with a fresh rowid (at the end). -/
def upsert (db : List Row) (r : Row) : List Row :=
  db.filter (fun x => x.path != r.path) ++ [r]

/-- A sequence of upserts applied in order. -/
def upsertList (db : List Row) (rs : List Row) : List Row :=
  rs.foldl upsert db

/-- A file seen during the walk.  `stat = some (size, mtime)` models a
successful `os.stat` (`mtime` is the formatted timestamp string produced at
src/main.py:125; the `datetime`/`strftime` formatting is external and not
re-modelled); `stat = none` models a `PermissionError`/`OSError` raised by
`os.stat` for that entry (src/main.py:122,143). -/
structure Entry where
  name : String
  stat : Option (Nat × String)
deriving DecidableEq

/-- One `(root, dirs, files)` triple yielded by `os.walk` (src/main.py:104).
`os.walk` is external; each drive is modelled by the sequence of triples its
walk yields.  The consumer's in-place `dirs[:]` filtering of hidden/system
directories (src/main.py:109-110, 183-184, 223-224 — identical in all three
consumers) determines which directories occur later in this same sequence. -/
structure WalkEntry where
  root : String
  dirNames : List String
  files : List Entry
deriving DecidableEq

/-- One scan root as returned by `FileIndexer._get_drives` (src/main.py:157-171,
an injected platform capability), together with the walk it produces.  A
drive-level `PermissionError`/`OSError` escaping `os.walk` is caught at
src/main.py:145-146 and merely continues with the next drive, which is
observationally the same as the walk sequence ending early, so it is modelled
by truncating `walk`. -/
structure Drive where
  name : String
  walk : List WalkEntry
deriving DecidableEq

/-- Python `s.startswith(c)` for a single-character prefix (src/main.py:109,
117, 183, 187, 223). -/
def headIs (c : Char) (s : String) : Bool :=
  match s.toList with
  | [] => false
  | d :: _ => d == c

/-- Scan for `os.path.splitext`: returns the suffix starting at the last `'.'`
that is preceded by some non-dot character (CPython `genericpath._splitext`
restricted to a bare file name); `seen` records whether a non-dot character
has occurred so far. -/
def extFrom : List Char → Bool → List Char
  | [], _ => []
  | c :: rest, seen =>
    if c = '.' then
      if seen then
        let r := extFrom rest seen
        if r.isEmpty then c :: rest else r
      else extFrom rest seen
    else extFrom rest true

/-- Model of `os.path.splitext(file)[1].lower()` (src/main.py:123).  `Char.toLower`
lowers only ASCII; `str.lower` also folds non-ASCII letters, a difference
that no claim touches. -/
def fileType (nm : String) : String :=
  String.mk ((extFrom nm.toList false).map Char.toLower)

/-- Whether the last character of `s` is `c`. -/
def lastIs (c : Char) (s : String) : Bool :=
  match s.toList.getLast? with
  | none => false
  | some d => d == c

/-- Model of `os.path.join(root, file)` (src/main.py:120) for POSIX-style roots. -/
def pyJoin (root nm : String) : String :=
  if lastIs '/' root then root ++ nm else root ++ "/" ++ nm

/-- The row built and upserted for a non-hidden, successfully stat-ed file
(src/main.py:122-131). -/
def mkRow (root nm : String) (size : Nat) (md : String) : Row :=
  { name := nm, path := pyJoin root nm, type := fileType nm,
    size := size, modified_date := md }

/-- Value of the cooperatively polled `self.stopped` flag at its `i`-th read.
`stop()` (src/main.py:153-155) sets the flag asynchronously from another
thread and nothing ever resets it, so one run is modelled by the index `k` of
the first read that observes `true` (`none` = `stop()` is never called during
the run). -/
def stopFlag (stopAt : Option Nat) (i : Nat) : Bool :=
  match stopAt with
  | none => false
  | some k => decide (k ≤ i)

/-- Model of `FileIndexer._get_percentage` (src/main.py:251-257).  CPython evaluates
`int((files_processed / total) * 100)` in binary floating point; the model
uses the exact value of that expression, `⌊files_processed * 100 / total⌋`. -/
def getPercentage (est fp : Nat) : Nat :=
  if est = 0 then 0 else min 99 (fp * 100 / est)

/-- One `progress_signal.emit(message, percentage)` (src/main.py:58).
`fp` records the value of `self.files_processed` at emission time; for the
periodic and terminal events that value is interpolated into the message. -/
structure ProgressEvent where
  msg : String
  pct : Nat
  fp : Nat
deriving DecidableEq

/-- Mutable state of one `FileIndexer.run` invocation: the number of reads of
`self.stopped` performed so far, `self.files_processed`, the store contents,
the trace of emitted progress events (in order), and whether any read of
`self.stopped` returned `True` (i.e. the session was cancelled). -/
structure RunState where
  reads : Nat
  filesProcessed : Nat
  db : List Row
  events : List ProgressEvent
  stopObserved : Bool
deriving DecidableEq

/-- The periodic batch event emitted every 500 files (src/main.py:135-141). -/
def progressEvent (est fp : Nat) : ProgressEvent :=
  let p := getPercentage est fp
  { msg := s!"Indexed {fp} files ({p}% complete)...", pct := p, fp := fp }

/-- Body of the per-file loop of `FileIndexer.run` (src/main.py:117-144) after
the `self.stopped` check: skip hidden files, skip entries whose `os.stat`
raises, otherwise upsert the row, bump the counter, and emit a progress event
on every 500th file.  The intermediate `conn.commit()` (src/main.py:136)
affects only cross-connection visibility, not the final contents. -/
def processFile (est : Nat) (root : String) (f : Entry) (s : RunState) : RunState :=
  if headIs '.' f.name then s
  else
    match f.stat with
    | none => s
    | some (size, mdate) =>
      let s1 := { s with db := upsert s.db (mkRow root f.name size mdate),
                         filesProcessed := s.filesProcessed + 1 }
      if s1.filesProcessed % 500 == 0 then
        { s1 with events := s1.events ++ [progressEvent est s1.filesProcessed] }
      else s1

/-- The per-file loop `for file in files` (src/main.py:112-144): each
iteration first reads `self.stopped` and breaks if it is set. -/
def walkFiles (stopAt : Option Nat) (est : Nat) (root : String) :
    List Entry → RunState → RunState
  | [], s => s
  | f :: fs, s =>
    if stopFlag stopAt s.reads then
      { s with reads := s.reads + 1, stopObserved := true }
    else
      walkFiles stopAt est root fs (processFile est root f { s with reads := s.reads + 1 })

/-- The per-directory loop `for root, dirs, files in os.walk(drive)`
(src/main.py:104-144): each iteration first reads `self.stopped` and breaks if
it is set; the `dirs[:]` filtering (src/main.py:109-110) only shapes the walk
sequence itself, which is part of the input. -/
def walkDirs (stopAt : Option Nat) (est : Nat) :
    List WalkEntry → RunState → RunState
  | [], s => s
  | w :: ws, s =>
    if stopFlag stopAt s.reads then
      { s with reads := s.reads + 1, stopObserved := true }
    else
      walkDirs stopAt est ws
        (walkFiles stopAt est w.root w.files { s with reads := s.reads + 1 })

/-- The per-drive event `f"Indexing {drive}..."` (src/main.py:100-101). -/
def driveEvent (est fp : Nat) (nm : String) : ProgressEvent :=
  { msg := s!"Indexing {nm}...", pct := getPercentage est fp, fp := fp }

/-- The per-drive loop `for drive in drives` (src/main.py:96-146): each
iteration first reads `self.stopped` and breaks if it is set, then emits the
per-drive event and walks the drive. -/
def walkDrives (stopAt : Option Nat) (est : Nat) :
    List Drive → RunState → RunState
  | [], s => s
  | d :: ds, s =>
    if stopFlag stopAt s.reads then
      { s with reads := s.reads + 1, stopObserved := true }
    else
      let s1 := { s with reads := s.reads + 1 }
      let s2 := { s1 with events := s1.events ++ [driveEvent est s1.filesProcessed d.name] }
      walkDrives stopAt est ds (walkDirs stopAt est d.walk s2)

/-- Hidden/system directory filtering `[d for d in dirs if not
d.startswith('.') and not d.startswith('$')]` (src/main.py:109, 183, 223). -/
def dirFilter (ds : List String) : List String :=
  ds.filter (fun d => !(headIs '.' d) && !(headIs '$' d))

/-- Sampling loop of `_estimate_total_files` over one drive's walk
(src/main.py:181-194): add the count of non-hidden files of each visited
directory and stop once 20 directories were sampled. -/
def sampleFilesWalk : List WalkEntry → Nat → Nat → Nat × Nat
  | [], fc, ss => (fc, ss)
  | w :: ws, fc, ss =>
    let fc1 := fc + (w.files.filter (fun f => !(headIs '.' f.name))).length
    let ss1 := ss + 1
    if 20 ≤ ss1 then (fc1, ss1) else sampleFilesWalk ws fc1 ss1

/-- Outer drive loop of `_estimate_total_files` (src/main.py:179-199); a
drive-level walk error is caught and continues with the next drive. -/
def sampleFilesDrives : List Drive → Nat → Nat → Nat × Nat
  | [], fc, ss => (fc, ss)
  | d :: ds, fc, ss =>
    let p := sampleFilesWalk d.walk fc ss
    if 20 ≤ p.2 then p else sampleFilesDrives ds p.1 p.2

/-- Sampling loop of `_estimate_dir_count` over one drive's walk
(src/main.py:221-234): add the count of non-hidden subdirectories of each
visited directory and stop once 10 directories were sampled. -/
def sampleDirsWalk : List WalkEntry → Nat → Nat → Nat × Nat
  | [], dc, ss => (dc, ss)
  | w :: ws, dc, ss =>
    let dc1 := dc + (dirFilter w.dirNames).length
    let ss1 := ss + 1
    if 10 ≤ ss1 then (dc1, ss1) else sampleDirsWalk ws dc1 ss1

/-- Outer drive loop of `_estimate_dir_count` (src/main.py:219-239). -/
def sampleDirsDrives : List Drive → Nat → Nat → Nat × Nat
  | [], dc, ss => (dc, ss)
  | d :: ds, dc, ss =>
    let p := sampleDirsWalk d.walk dc ss
    if 10 ≤ p.2 then p else sampleDirsDrives ds p.1 p.2

/-- Model of `FileIndexer._estimate_dir_count` (src/main.py:213-249).  The float
expression `int(avg_dirs * 50)` with `avg_dirs = dir_count / max(1, sample)`
is modelled by its exact value `dir_count * 50 / max 1 sample` (truncation of
a non-negative quotient is floor, i.e. `Nat` division). -/
def estimateDirCount (drives : List Drive) : Nat :=
  let p := sampleDirsDrives drives 0 0
  if 0 < p.2 then max 100 (p.1 * 50 / max 1 p.2) else 1000

/-- Model of `FileIndexer._estimate_total_files` (src/main.py:173-209), with the same
exact-value modelling of the float expression
`int(avg_files_per_dir * estimated_dirs)`. -/
def estimateTotalFiles (drives : List Drive) : Nat :=
  let p := sampleFilesDrives drives 0 0
  if 0 < p.2 then max 1000 (p.1 * estimateDirCount drives / max 1 p.2) else 10000

/-- Result of one complete `FileIndexer.run` invocation: the event trace, the
final store contents, the final `self.files_processed`, the estimate
`self.total_files_estimated` fixed by the estimation phase, whether a read of
`self.stopped` returned `True`, and whether `finished_signal` was emitted. -/
structure RunResult where
  events : List ProgressEvent
  db : List Row
  filesProcessed : Nat
  est : Nat
  stopObserved : Bool
  finished : Bool
deriving DecidableEq

/-- The two estimation-phase emissions, `"Estimating total files..."`
(src/main.py:90) and `"Estimated approx. ... files to index"`
(src/main.py:211), both with percentage 0 and `files_processed = 0`. -/
def initEvents (est : Nat) : List ProgressEvent :=
  [{ msg := "Estimating total files...", pct := 0, fp := 0 },
   { msg := s!"Estimated approx. {est} files to index", pct := 0, fp := 0 }]

/-- The unconditional terminal emission `("Completed indexing ... files.",
100)` (src/main.py:150), reached on the normal path and after cancellation
alike. -/
def finEvent (fp : Nat) : ProgressEvent :=
  { msg := s!"Completed indexing {fp} files.", pct := 100, fp := fp }

/-- Model of `FileIndexer.run` after a successful `sqlite3.connect` (src/main.py:69-151):
schema creation (`CREATE TABLE IF NOT EXISTS`, leaving existing rows `db0`
untouched), the estimation phase with its two emissions, the cancellable walk,
the final commit, the terminal emission and `finished_signal`. -/
def runBody (db0 : List Row) (drives : List Drive) (stopAt : Option Nat) : RunResult :=
  let est := estimateTotalFiles drives
  let s := walkDrives stopAt est drives
    { reads := 0, filesProcessed := 0, db := db0, events := initEvents est,
      stopObserved := false }
  { events := s.events ++ [finEvent s.filesProcessed], db := s.db,
    filesProcessed := s.filesProcessed, est := est,
    stopObserved := s.stopObserved, finished := true }

/-- A failure of `sqlite3.connect`. -/
inductive StoreError where
  | connectFailed (msg : String)
deriving DecidableEq

/-- Model of `FileIndexer.run` (src/main.py:67-151).  `sqlite3.connect(DB_PATH)`
(src/main.py:69) is not wrapped in any handler, so a connection failure
propagates out of `run` before any event is emitted and before any row is
written. -/
def runIndexer (connect : Except StoreError Unit) (db0 : List Row)
    (drives : List Drive) (stopAt : Option Nat) : Except StoreError RunResult :=
  match connect with
  | .error e => .error e
  | .ok _ => .ok (runBody db0 drives stopAt)

/-- SQLite `LIKE` without an `ESCAPE` clause: `%` matches any sequence of
characters, `_` matches exactly one character, and every other pattern
character compares ASCII-case-insensitively with the text character. -/
def likeMatch : List Char → List Char → Bool
  | [], t => t.isEmpty
  | p :: ps, t =>
    if p = '%' then t.tails.any (fun su => likeMatch ps su)
    else
      match t with
      | [] => false
      | c :: ts => (if p = '_' then true else p.toLower == c.toLower) && likeMatch ps ts

/-- Lexicographic comparison of character lists; on valid UTF-8 this is
exactly `memcmp` of the encodings, i.e. SQLite's BINARY collation (proved
equivalent to `String` `<` in `lexLt_iff` below). -/
def lexLt : List Char → List Char → Bool
  | [], [] => false
  | [], _ :: _ => true
  | _ :: _, [] => false
  | a :: as, b :: bs => decide (a < b) || (a == b && lexLt as bs)

/-- Stable insertion into a name-sorted list: the new row passes rows with a
strictly smaller name and stops before any row whose name is not smaller, so
rows with equal names keep their store (rowid) order. -/
def insertByName (r : Row) : List Row → List Row
  | [] => [r]
  | x :: xs =>
    if lexLt x.name.toList r.name.toList then x :: insertByName r xs else r :: x :: xs

/-- Model of `ORDER BY name` with SQLite's default BINARY collation (memcmp on UTF-8,
which coincides with the code-point order of `String`), realised as a stable
insertion sort; ties are left in store row order, the determinization the spec
names for SQLite's otherwise arbitrary tie order. -/
def sortByName : List Row → List Row
  | [] => []
  | r :: rs => insertByName r (sortByName rs)

/-- Model of `SELECT name, path, type FROM files WHERE name LIKE ? ORDER BY name
LIMIT 100` with parameter `"%" + query + "%"` (src/main.py:520-526). -/
def sqliteQuery (db : List Row) (q : String) : List (String × String × String) :=
  let pat := ("%" ++ q ++ "%").toList
  ((sortByName (db.filter (fun r => likeMatch pat r.name.toList))).take 100).map
    (fun r => (r.name, r.path, r.type))

/-- Python `str.strip()` (whitespace at both ends; `Char.isWhitespace` covers
the ASCII whitespace that matters here). -/
def pyStrip (s : String) : String :=
  String.mk (((s.toList.dropWhile Char.isWhitespace).reverse.dropWhile
    Char.isWhitespace).reverse)

/-- Outcome of one `SearchBar.search` invocation: the rows shown, whether a
SQL statement was actually executed against the store, and the status-label
text (`some` an error or result-count message). -/
structure SearchOutcome where
  results : List (String × String × String)
  queried : Bool
  status : Option String
deriving DecidableEq

/-- Model of `SearchBar.search` (src/main.py:507-571).  The input is stripped; an empty
result clears the list and returns before any SQL is issued (src/main.py:512-516).
Otherwise the query runs; `execErr = some e` models `cursor.execute` raising
`sqlite3.Error` with message `e` (e.g. because the store could not be opened),
which is caught at src/main.py:569-571 and surfaced as the status text
`"Search error: ..."`. -/
def search (execErr : Option String) (db : List Row) (input : String) : SearchOutcome :=
  let q := pyStrip input
  if q = "" then { results := [], queried := false, status := none }
  else
    match execErr with
    | some e => { results := [], queried := true, status := some ("Search error: " ++ e) }
    | none =>
      let rs := sqliteQuery db q
      let n := rs.length
      { results := rs, queried := true,
        status := if rs.isEmpty then none else some s!"Found {n} results" }

/-- Case-insensitive substring containment, the spec's matching relation
(spec §4.3 "case-insensitive containment of the fragment within `name`"): the
lowered fragment occurs contiguously inside the lowered text. -/
def containsCI (q t : List Char) : Bool :=
  (t.map Char.toLower).tails.any (fun su => (q.map Char.toLower).isPrefixOf su)

/-- The relation `containsCI` on strings. -/
def specContainsCI (frag nm : String) : Bool :=
  containsCI frag.toList nm.toList

/-- The estimate exactly as the spec's words state it (spec §4.2 step 2):
`max(floor, avgFilesPerSampledDir * estimatedTotalDirs)` with floor 1000,
with no fallback case. -/
def specEstimatedTotalFiles (drives : List Drive) : Nat :=
  let p := sampleFilesDrives drives 0 0
  max 1000 (p.1 * estimateDirCount drives / max 1 p.2)

/-- The row produced for one walk file, if any: hidden files and files whose
`os.stat` fails produce nothing. -/
def rowOfEntry (root : String) (f : Entry) : Option Row :=
  if headIs '.' f.name then none
  else f.stat.map (fun pr => mkRow root f.name pr.1 pr.2)

/-- All rows an uncancelled session upserts, in walk order. -/
def rowsOfDrives (drives : List Drive) : List Row :=
  drives.flatMap (fun d => d.walk.flatMap (fun w => w.files.filterMap (rowOfEntry w.root)))

/-- Well-formedness of a segment of the event trace produced while walking:
every event's percentage is `_get_percentage` of the `files_processed` value
it was emitted at, those values lie between the counter value `lo` at the
start and `hi` at the end of the segment, and they are non-decreasing along
the segment. -/
def TraceOK (est lo hi : Nat) (l : List ProgressEvent) : Prop :=
  (∀ e ∈ l, e.pct = getPercentage est e.fp ∧ lo ≤ e.fp ∧ e.fp ≤ hi) ∧
  List.Pairwise (fun a b => a.fp ≤ b.fp) l

/-- Fixture: a drive whose walk yields nothing (e.g. an unreadable root). -/
def emptyWalkDrive : Drive := { name := "/", walk := [] }

/-- Fixture: a drive whose walk yields one directory with no files. -/
def oneDirDrive : Drive :=
  { name := "/", walk := [{ root := "/", dirNames := [], files := [] }] }

/-- Fixture: a drive with a single readable file. -/
def oneFileDrive : Drive :=
  { name := "/",
    walk := [{ root := "/", dirNames := [],
               files := [{ name := "f.txt", stat := some (3, "2020-01-01 00:00:00") }] }] }

/-- Fixture for the skip-and-continue scenario: one directory holding nine
readable files and one file whose `os.stat` fails. -/
def scenarioDrive : Drive :=
  { name := "/data",
    walk := [{ root := "/data", dirNames := [],
               files :=
        [{ name := "a1.txt", stat := some (1, "2024-01-01 00:00:00") },
         { name := "a2.txt", stat := some (2, "2024-01-01 00:00:00") },
         { name := "a3.txt", stat := some (3, "2024-01-01 00:00:00") },
         { name := "a4.txt", stat := some (4, "2024-01-01 00:00:00") },
         { name := "broken.txt", stat := none },
         { name := "a5.txt", stat := some (5, "2024-01-01 00:00:00") },
         { name := "a6.txt", stat := some (6, "2024-01-01 00:00:00") },
         { name := "a7.txt", stat := some (7, "2024-01-01 00:00:00") },
         { name := "a8.txt", stat := some (8, "2024-01-01 00:00:00") },
         { name := "a9.txt", stat := some (9, "2024-01-01 00:00:00") }] }] }

/-- Fixture: the store of the spec's query-correctness example. -/
def exampleStore : List Row :=
  [{ name := "Invoice2023.pdf", path := "/a/Invoice2023.pdf", type := ".pdf",
     size := 1, modified_date := "d" },
   { name := "README.md", path := "/a/README.md", type := ".md",
     size := 2, modified_date := "d" },
   { name := "invoice_old.txt", path := "/b/invoice_old.txt", type := ".txt",
     size := 3, modified_date := "d" }]

/- ------------------------------------------------------------------ -/
/- Store lemmas: upsert keeps `path` unique and is idempotent.        -/
/- ------------------------------------------------------------------ -/

theorem upsert_paths_nodup (db : List Row) (r : Row)
    (h : (db.map Row.path).Nodup) : ((upsert db r).map Row.path).Nodup := by
  unfold upsert
  rw [List.map_append, List.nodup_append]
  refine ⟨((List.filter_sublist db).map Row.path).nodup h, by simp, ?_⟩
  intro a ha hb
  simp only [List.map_cons, List.map_nil, List.mem_singleton] at hb
  subst hb
  obtain ⟨x, hx, hxa⟩ := List.mem_map.mp ha
  have := List.of_mem_filter hx
  simp only [bne_iff_ne, ne_eq] at this
  exact this hxa

theorem upsertList_paths_nodup (rs : List Row) (db : List Row)
    (h : (db.map Row.path).Nodup) : ((upsertList db rs).map Row.path).Nodup := by
  induction rs generalizing db with
  | nil => exact h
  | cons r rs ih => exact ih (upsert db r) (upsert_paths_nodup db r h)

theorem upsert_idem (db : List Row) (r : Row) :
    upsert (upsert db r) r = upsert db r := by
  unfold upsert
  rw [List.filter_append]
  have h1 : List.filter (fun x => x.path != r.path) [r] = [] := by simp
  have h2 : List.filter (fun x => x.path != r.path)
      (List.filter (fun x => x.path != r.path) db) =
      List.filter (fun x => x.path != r.path) db := by
    apply List.filter_eq_self.mpr
    intro a ha
    exact (List.mem_filter.mp ha).2
  rw [h1, h2, List.append_nil]

theorem upsert_lookup (db : List Row) (r : Row) :
    (upsert db r).filter (fun x => x.path == r.path) = [r] := by
  unfold upsert
  rw [List.filter_append]
  have h1 : List.filter (fun x => x.path == r.path) [r] = [r] := by simp
  have h2 : List.filter (fun x => x.path == r.path)
      (List.filter (fun x => x.path != r.path) db) = [] := by
    apply List.filter_eq_nil_iff.mpr
    intro a ha
    have := List.of_mem_filter ha
    simpa using this
  rw [h1, h2, List.nil_append]

/-- C4.  For every sequence of upserts the store holds at most one row per
`path` (starting from the freshly created empty table); upserting the same
entry twice is the same store state as upserting it once; and after upserting
`r` the rows whose path equals `r.path` are exactly the single row `r` with
its field values. -/
theorem c4_upsert_unique_idempotent :
    (∀ rs : List Row, ((upsertList [] rs).map Row.path).Nodup) ∧
    (∀ (db : List Row) (r : Row), upsert (upsert db r) r = upsert db r) ∧
    (∀ (db : List Row) (r : Row),
      (upsert db r).filter (fun x => x.path == r.path) = [r]) :=
  ⟨fun rs => upsertList_paths_nodup rs [] (by simp),
   upsert_idem, upsert_lookup⟩

/- ------------------------------------------------------------------ -/
/- Empty fragment and store-open failure.                             -/
/- ------------------------------------------------------------------ -/

/-- C9.  For an empty fragment, `search` returns an empty result set, issues
no SQL against the store (so it cannot fail even on a broken store), and sets
no error status. -/
theorem c9_empty_fragment (execErr : Option String) (db : List Row) :
    search execErr db "" = { results := [], queried := false, status := none } :=
  rfl

/-- C2.  A store-open failure is fatal to the operation attempted and is
surfaced as a distinct error value: a failing `sqlite3.connect` makes
`FileIndexer.run` propagate exactly that error with no event emitted and no
row written, and a failing store underneath an executed query makes
`SearchBar.search` report the distinct `"Search error: ..."` status with no
result rows, rather than swallowing the failure. -/
theorem c2_store_open_failure_surfaced (e : StoreError) (db0 : List Row)
    (drives : List Drive) (stopAt : Option Nat) (db : List Row)
    (input emsg : String) (h : pyStrip input ≠ "") :
    runIndexer (.error e) db0 drives stopAt = .error e ∧
    search (some emsg) db input =
      { results := [], queried := true, status := some ("Search error: " ++ emsg) } := by
  constructor
  · rfl
  · unfold search
    simp only [if_neg h]

theorem c2_store_open_failure_witness :
    runIndexer (.error (.connectFailed "unable to open database file")) [] [] none
      = .error (.connectFailed "unable to open database file") ∧
    search (some "no such table: files") [] "x" =
      { results := [], queried := true,
        status := some ("Search error: " ++ "no such table: files") } :=
  c2_store_open_failure_surfaced (.connectFailed "unable to open database file")
    [] [] none [] "x" "no such table: files" (by decide)

/- ------------------------------------------------------------------ -/
/- Wildcard fragments break literal containment (C10, C3 failure).    -/
/- ------------------------------------------------------------------ -/

/-- C10.  The fragment is embedded unescaped in the LIKE pattern, so a
fragment containing `_` (here `"a_c"`) matches a row (`"abc"`) whose name
does not contain the fragment as a literal substring. -/
theorem c10_wildcard_not_literal :
    sqliteQuery [{ name := "abc", path := "/abc", type := "", size := 0,
                   modified_date := "d" }] "a_c" = [("abc", "/abc", "")] ∧
    specContainsCI "a_c" "abc" = false := by
  constructor
  · rfl
  · rfl

/-- C3 fails as stated: the non-empty fragment `"%"` returns the row named
`"abc"` although `"abc"` does not contain `"%"` case-insensitively, so the
result is not "exactly the rows whose name contains the fragment". -/
theorem c3_wildcard_counterexample :
    sqliteQuery [{ name := "abc", path := "/abc", type := "", size := 0,
                   modified_date := "d" }] "%" = [("abc", "/abc", "")] ∧
    specContainsCI "%" "abc" = false := by
  constructor
  · rfl
  · rfl

/- ------------------------------------------------------------------ -/
/- Cancellation is honoured at every checkpoint (C7).                 -/
/- ------------------------------------------------------------------ -/

/-- C7.  Once a read of the `stopped` flag returns true, every loop level
stops at its next checkpoint: the per-file loop processes no further file and
writes no further row, the per-directory loop processes no subsequent
directory, and the per-drive loop processes no subsequent drive — so a
cancelled session ends after at most the file whose checkpoint already
passed, and never completes a later directory. -/
theorem c7_cancellation_checkpoints (stopAt : Option Nat) (est : Nat)
    (s : RunState) (root : String) (files : List Entry)
    (ws : List WalkEntry) (ds : List Drive)
    (h : stopFlag stopAt s.reads = true) :
    ((walkFiles stopAt est root files s).db = s.db ∧
     (walkFiles stopAt est root files s).filesProcessed = s.filesProcessed ∧
     (walkFiles stopAt est root files s).events = s.events) ∧
    ((walkDirs stopAt est ws s).db = s.db ∧
     (walkDirs stopAt est ws s).filesProcessed = s.filesProcessed ∧
     (walkDirs stopAt est ws s).events = s.events) ∧
    ((walkDrives stopAt est ds s).db = s.db ∧
     (walkDrives stopAt est ds s).filesProcessed = s.filesProcessed ∧
     (walkDrives stopAt est ds s).events = s.events) := by
  refine ⟨?_, ?_, ?_⟩
  · cases files with
    | nil => exact ⟨rfl, rfl, rfl⟩
    | cons f fs => simp [walkFiles, h]
  · cases ws with
    | nil => exact ⟨rfl, rfl, rfl⟩
    | cons w ws' => simp [walkDirs, h]
  · cases ds with
    | nil => exact ⟨rfl, rfl, rfl⟩
    | cons d ds' => simp [walkDrives, h]

theorem c7_cancellation_witness :
    ((walkFiles (some 0) 1000 "/" [{ name := "f.txt", stat := some (1, "d") }]
        { reads := 0, filesProcessed := 0, db := [], events := [],
          stopObserved := false }).db = [] ∧
     (walkFiles (some 0) 1000 "/" [{ name := "f.txt", stat := some (1, "d") }]
        { reads := 0, filesProcessed := 0, db := [], events := [],
          stopObserved := false }).filesProcessed = 0 ∧
     (walkFiles (some 0) 1000 "/" [{ name := "f.txt", stat := some (1, "d") }]
        { reads := 0, filesProcessed := 0, db := [], events := [],
          stopObserved := false }).events = []) ∧
    ((walkDirs (some 0) 1000 [{ root := "/", dirNames := [], files := [] }]
        { reads := 0, filesProcessed := 0, db := [], events := [],
          stopObserved := false }).db = [] ∧
     (walkDirs (some 0) 1000 [{ root := "/", dirNames := [], files := [] }]
        { reads := 0, filesProcessed := 0, db := [], events := [],
          stopObserved := false }).filesProcessed = 0 ∧
     (walkDirs (some 0) 1000 [{ root := "/", dirNames := [], files := [] }]
        { reads := 0, filesProcessed := 0, db := [], events := [],
          stopObserved := false }).events = []) ∧
    ((walkDrives (some 0) 1000 [{ name := "/", walk := [] }]
        { reads := 0, filesProcessed := 0, db := [], events := [],
          stopObserved := false }).db = [] ∧
     (walkDrives (some 0) 1000 [{ name := "/", walk := [] }]
        { reads := 0, filesProcessed := 0, db := [], events := [],
          stopObserved := false }).filesProcessed = 0 ∧
     (walkDrives (some 0) 1000 [{ name := "/", walk := [] }]
        { reads := 0, filesProcessed := 0, db := [], events := [],
          stopObserved := false }).events = []) :=
  c7_cancellation_checkpoints (some 0) 1000
    { reads := 0, filesProcessed := 0, db := [], events := [], stopObserved := false }
    "/" [{ name := "f.txt", stat := some (1, "d") }]
    [{ root := "/", dirNames := [], files := [] }]
    [{ name := "/", walk := [] }] (by decide)

/- ------------------------------------------------------------------ -/
/- Estimation (C8).                                                   -/
/- ------------------------------------------------------------------ -/

/-- C8 fails as stated: a run whose walk yields no directory at all samples
zero directories, and the code then uses the fallback constant 10000 instead
of the claimed `max(1000, avgFilesPerSampledDir * estimatedTotalDirs)`
formula, whose value here would be 1000. -/
theorem c8_fallback_counterexample :
    estimateTotalFiles [{ name := "/", walk := [] }] = 10000 ∧
    specEstimatedTotalFiles [{ name := "/", walk := [] }] = 1000 ∧
    (10000 : Nat) ≠ 1000 := by
  refine ⟨rfl, rfl, by decide⟩

/-- C8 amended.  The estimate is computed once at session start; when at
least one directory was sampled it equals
`max(1000, floor(avgFilesPerSampledDir * estimatedTotalDirs))`, when no
directory was sampled it is the fallback 10000; in every case it is at least
1000 (so the percentage denominator is never near zero), and the session's
stored estimate is exactly this start-of-session value whatever the walk or a
cancellation does (it is never corrected mid-walk). -/
theorem c8_estimate_floor_fixed (drives : List Drive) (db0 : List Row)
    (stopAt : Option Nat) :
    1000 ≤ estimateTotalFiles drives ∧
    (0 < (sampleFilesDrives drives 0 0).2 →
      estimateTotalFiles drives = specEstimatedTotalFiles drives) ∧
    ((sampleFilesDrives drives 0 0).2 = 0 → estimateTotalFiles drives = 10000) ∧
    (runBody db0 drives stopAt).est = estimateTotalFiles drives := by
  refine ⟨?_, ?_, ?_, rfl⟩
  · unfold estimateTotalFiles
    by_cases h : 0 < (sampleFilesDrives drives 0 0).2
    · simp only [if_pos h]
      exact Nat.le_max_left _ _
    · simp only [if_neg h]
      omega
  · intro h
    unfold estimateTotalFiles specEstimatedTotalFiles
    simp only [if_pos h]
  · intro h
    unfold estimateTotalFiles
    simp [h]

theorem c8_estimate_witness :
    1000 ≤ estimateTotalFiles [oneDirDrive] ∧
    estimateTotalFiles [oneDirDrive] = specEstimatedTotalFiles [oneDirDrive] ∧
    (runBody [] [oneDirDrive] none).est = estimateTotalFiles [oneDirDrive] :=
  ⟨(c8_estimate_floor_fixed [oneDirDrive] [] none).1,
   (c8_estimate_floor_fixed [oneDirDrive] [] none).2.1 (by decide),
   (c8_estimate_floor_fixed [oneDirDrive] [] none).2.2.2⟩

/- ------------------------------------------------------------------ -/
/- Per-file processing facts.                                         -/
/- ------------------------------------------------------------------ -/

theorem processFile_db (est : Nat) (root : String) (f : Entry) (s : RunState) :
    (processFile est root f s).db =
      (match rowOfEntry root f with
       | some r => upsert s.db r
       | none => s.db) := by
  unfold processFile rowOfEntry
  by_cases h : headIs '.' f.name
  · simp [h]
  · cases hst : f.stat with
    | none => simp [h, hst]
    | some p =>
      cases p with
      | mk sz md =>
        simp only [h, hst, Bool.false_eq_true, if_false, Option.map_some]
        split <;> rfl

theorem processFile_fp (est : Nat) (root : String) (f : Entry) (s : RunState) :
    (processFile est root f s).filesProcessed =
      s.filesProcessed + (rowOfEntry root f).toList.length := by
  unfold processFile rowOfEntry
  by_cases h : headIs '.' f.name
  · simp [h]
  · cases hst : f.stat with
    | none => simp [h, hst]
    | some p =>
      cases p with
      | mk sz md =>
        simp only [h, hst, Bool.false_eq_true, if_false, Option.map_some,
          Option.toList_some, List.length_singleton]
        split <;> rfl

theorem processFile_reads (est : Nat) (root : String) (f : Entry) (s : RunState) :
    (processFile est root f s).reads = s.reads := by
  unfold processFile
  by_cases h : headIs '.' f.name
  · simp [h]
  · cases hst : f.stat with
    | none => simp [h, hst]
    | some p =>
      cases p with
      | mk sz md =>
        simp only [h, hst, Bool.false_eq_true, if_false]
        split <;> rfl

theorem processFile_stopObserved (est : Nat) (root : String) (f : Entry) (s : RunState) :
    (processFile est root f s).stopObserved = s.stopObserved := by
  unfold processFile
  by_cases h : headIs '.' f.name
  · simp [h]
  · cases hst : f.stat with
    | none => simp [h, hst]
    | some p =>
      cases p with
      | mk sz md =>
        simp only [h, hst, Bool.false_eq_true, if_false]
        split <;> rfl

theorem processFile_events (est : Nat) (root : String) (f : Entry) (s : RunState) :
    ∃ new, (processFile est root f s).events = s.events ++ new ∧
      ∀ e ∈ new, e = progressEvent est (processFile est root f s).filesProcessed := by
  unfold processFile
  by_cases h : headIs '.' f.name
  · exact ⟨[], by simp [h], by simp⟩
  · cases hst : f.stat with
    | none => exact ⟨[], by simp [h, hst], by simp⟩
    | some p =>
      cases p with
      | mk sz md =>
        simp only [h, hst, Bool.false_eq_true, if_false]
        split
        · exact ⟨[progressEvent est (s.filesProcessed + 1)], rfl, by
            intro e he
            simp only [List.mem_singleton] at he
            simp [he]⟩
        · exact ⟨[], by simp, by simp⟩

/- ------------------------------------------------------------------ -/
/- Uncancelled runs: skip-and-continue and exact store contents (C6). -/
/- ------------------------------------------------------------------ -/

theorem upsertList_append (db : List Row) (a b : List Row) :
    upsertList db (a ++ b) = upsertList (upsertList db a) b := by
  unfold upsertList
  rw [List.foldl_append]

theorem walkFiles_none (est : Nat) (root : String) (files : List Entry) :
    ∀ s : RunState,
    (walkFiles none est root files s).db =
      upsertList s.db (files.filterMap (rowOfEntry root)) ∧
    (walkFiles none est root files s).filesProcessed =
      s.filesProcessed + (files.filterMap (rowOfEntry root)).length ∧
    (walkFiles none est root files s).stopObserved = s.stopObserved := by
  induction files with
  | nil => intro s; exact ⟨rfl, by simp [walkFiles, upsertList], rfl⟩
  | cons f fs ih =>
    intro s
    have hflag : stopFlag none s.reads = false := rfl
    simp only [walkFiles, hflag, Bool.false_eq_true, if_false]
    set s1 : RunState := { s with reads := s.reads + 1 } with hs1
    obtain ⟨ihdb, ihfp, ihstop⟩ := ih (processFile est root f s1)
    refine ⟨?_, ?_, ?_⟩
    · rw [ihdb, processFile_db]
      cases hro : rowOfEntry root f with
      | none => simp [hro, List.filterMap_cons, hs1]
      | some r => simp [hro, List.filterMap_cons, hs1, upsertList]
    · rw [ihfp, processFile_fp]
      cases hro : rowOfEntry root f with
      | none => simp [hro, List.filterMap_cons, hs1]
      | some r => simp [hro, List.filterMap_cons, hs1]; omega
    · rw [ihstop, processFile_stopObserved]

theorem walkDirs_none (est : Nat) (ws : List WalkEntry) :
    ∀ s : RunState,
    (walkDirs none est ws s).db =
      upsertList s.db (ws.flatMap (fun w => w.files.filterMap (rowOfEntry w.root))) ∧
    (walkDirs none est ws s).filesProcessed =
      s.filesProcessed + (ws.flatMap (fun w => w.files.filterMap (rowOfEntry w.root))).length ∧
    (walkDirs none est ws s).stopObserved = s.stopObserved := by
  induction ws with
  | nil => intro s; exact ⟨rfl, by simp [walkDirs, upsertList], rfl⟩
  | cons w ws ih =>
    intro s
    have hflag : stopFlag none s.reads = false := rfl
    simp only [walkDirs, hflag, Bool.false_eq_true, if_false]
    set s1 : RunState := { s with reads := s.reads + 1 } with hs1
    obtain ⟨fdb, ffp, fstop⟩ := walkFiles_none est w.root w.files s1
    obtain ⟨ihdb, ihfp, ihstop⟩ := ih (walkFiles none est w.root w.files s1)
    refine ⟨?_, ?_, ?_⟩
    · rw [ihdb, fdb, List.flatMap_cons, upsertList_append, hs1]
    · have hfp1 : s1.filesProcessed = s.filesProcessed := rfl
      rw [ihfp, ffp, List.flatMap_cons, List.length_append, hfp1]
      omega
    · rw [ihstop, fstop]

theorem walkDrives_none (est : Nat) (ds : List Drive) :
    ∀ s : RunState,
    (walkDrives none est ds s).db = upsertList s.db (rowsOfDrives ds) ∧
    (walkDrives none est ds s).filesProcessed =
      s.filesProcessed + (rowsOfDrives ds).length ∧
    (walkDrives none est ds s).stopObserved = s.stopObserved := by
  induction ds with
  | nil => intro s; exact ⟨rfl, by simp [walkDrives, rowsOfDrives, upsertList], rfl⟩
  | cons d ds ih =>
    intro s
    have hflag : stopFlag none s.reads = false := rfl
    simp only [walkDrives, hflag, Bool.false_eq_true, if_false]
    obtain ⟨ddb, dfp, dstop⟩ := walkDirs_none est d.walk
      { s with reads := s.reads + 1,
               events := s.events ++ [driveEvent est s.filesProcessed d.name] }
    obtain ⟨ihdb, ihfp, ihstop⟩ := ih (walkDirs none est d.walk
      { s with reads := s.reads + 1,
               events := s.events ++ [driveEvent est s.filesProcessed d.name] })
    refine ⟨?_, ?_, ?_⟩
    · rw [ihdb, ddb]
      simp only [rowsOfDrives, List.flatMap_cons, upsertList_append]
    · rw [ihfp, dfp]
      simp only [rowsOfDrives, List.flatMap_cons, List.length_append]
      omega
    · rw [ihstop, dstop]

/-- C6.  A per-entry stat failure only skips that entry: an uncancelled
session always completes (no stop observed, `finished_signal` emitted), its
final store is the initial store with exactly the rows of the non-hidden,
successfully stat-ed files upserted in walk order, and its processed count is
the number of such files.  In particular, over a directory holding one
unreadable and nine readable files, the session completes with exactly the
nine readable files upserted. -/
theorem c6_skip_and_continue (db0 : List Row) (drives : List Drive) :
    (runBody db0 drives none).stopObserved = false ∧
    (runBody db0 drives none).finished = true ∧
    (runBody db0 drives none).db = upsertList db0 (rowsOfDrives drives) ∧
    (runBody db0 drives none).filesProcessed = (rowsOfDrives drives).length ∧
    (runBody [] [scenarioDrive] none).db.map Row.name =
      ["a1.txt", "a2.txt", "a3.txt", "a4.txt", "a5.txt",
       "a6.txt", "a7.txt", "a8.txt", "a9.txt"] ∧
    (runBody [] [scenarioDrive] none).stopObserved = false := by
  obtain ⟨hdb, hfp, hstop⟩ := walkDrives_none (estimateTotalFiles drives) drives
    { reads := 0, filesProcessed := 0, db := db0,
      events := initEvents (estimateTotalFiles drives), stopObserved := false }
  refine ⟨hstop, rfl, hdb, by rw [runBody]; simpa using hfp, by decide, by decide⟩

/- ------------------------------------------------------------------ -/
/- Percentage facts and trace machinery (C1, C5).                     -/
/- ------------------------------------------------------------------ -/

theorem getPercentage_zero (est : Nat) : getPercentage est 0 = 0 := by
  unfold getPercentage
  split <;> simp

theorem getPercentage_le_99 (est fp : Nat) : getPercentage est fp ≤ 99 := by
  unfold getPercentage
  split
  · omega
  · exact min_le_left _ _

theorem getPercentage_mono (est : Nat) {a b : Nat} (h : a ≤ b) :
    getPercentage est a ≤ getPercentage est b := by
  unfold getPercentage
  split
  · omega
  · exact min_le_min (le_refl 99)
      (Nat.div_le_div_right (Nat.mul_le_mul_right 100 h))

theorem progressEvent_pct (est fp : Nat) :
    (progressEvent est fp).pct = getPercentage est fp := rfl

theorem progressEvent_fp (est fp : Nat) : (progressEvent est fp).fp = fp := rfl

theorem traceOK_nil (est lo hi : Nat) : TraceOK est lo hi [] :=
  ⟨by simp, List.Pairwise.nil⟩

theorem traceOK_mono {est lo hi lo' hi' : Nat} {l : List ProgressEvent}
    (h1 : lo' ≤ lo) (h2 : hi ≤ hi') (h : TraceOK est lo hi l) :
    TraceOK est lo' hi' l :=
  ⟨fun e hel => ⟨(h.1 e hel).1, le_trans h1 (h.1 e hel).2.1,
    le_trans (h.1 e hel).2.2 h2⟩, h.2⟩

theorem traceOK_append {est lo mid hi : Nat} {l1 l2 : List ProgressEvent}
    (hl : TraceOK est lo mid l1) (hr : TraceOK est mid hi l2)
    (h1 : lo ≤ mid) (h2 : mid ≤ hi) : TraceOK est lo hi (l1 ++ l2) := by
  obtain ⟨he1, hp1⟩ := hl
  obtain ⟨he2, hp2⟩ := hr
  constructor
  · intro e hel
    rcases List.mem_append.mp hel with h | h
    · exact ⟨(he1 e h).1, (he1 e h).2.1, le_trans (he1 e h).2.2 h2⟩
    · exact ⟨(he2 e h).1, le_trans h1 (he2 e h).2.1, (he2 e h).2.2⟩
  · rw [List.pairwise_append]
    exact ⟨hp1, hp2, fun a ha b hb => le_trans (he1 a ha).2.2 (he2 b hb).2.1⟩

theorem traceOK_all_progress {est lo hi fp : Nat} {l : List ProgressEvent}
    (h : ∀ e ∈ l, e = progressEvent est fp) (h2 : lo ≤ fp) (h3 : fp ≤ hi) :
    TraceOK est lo hi l := by
  constructor
  · intro e hel
    rw [h e hel]
    exact ⟨rfl, h2, h3⟩
  · exact List.pairwise_of_forall_mem_list (fun a ha b hb => by
      rw [h a ha, h b hb])

theorem walkFiles_trace (stopAt : Option Nat) (est : Nat) (root : String)
    (files : List Entry) : ∀ s : RunState,
    ∃ new, (walkFiles stopAt est root files s).events = s.events ++ new ∧
      s.filesProcessed ≤ (walkFiles stopAt est root files s).filesProcessed ∧
      TraceOK est s.filesProcessed
        (walkFiles stopAt est root files s).filesProcessed new := by
  induction files with
  | nil =>
    intro s
    exact ⟨[], by simp [walkFiles], le_refl _, traceOK_nil _ _ _⟩
  | cons f fs ih =>
    intro s
    by_cases hst : stopFlag stopAt s.reads
    · have hred : walkFiles stopAt est root (f :: fs) s =
          { s with reads := s.reads + 1, stopObserved := true } := by
        simp [walkFiles, hst]
      rw [hred]
      exact ⟨[], by simp, le_refl _, traceOK_nil _ _ _⟩
    · simp only [walkFiles, hst, Bool.false_eq_true, if_false]
      set s1 : RunState := { s with reads := s.reads + 1 } with hs1
      obtain ⟨new1, hev1, hall1⟩ := processFile_events est root f s1
      have hfp1 : (processFile est root f s1).filesProcessed =
          s1.filesProcessed + (rowOfEntry root f).toList.length :=
        processFile_fp est root f s1
      obtain ⟨new2, hev2, hle2, hok2⟩ := ih (processFile est root f s1)
      have hsfp : s1.filesProcessed = s.filesProcessed := rfl
      have hle1 : s.filesProcessed ≤ (processFile est root f s1).filesProcessed := by
        rw [hfp1, hsfp]; omega
      refine ⟨new1 ++ new2, ?_, le_trans hle1 hle2, ?_⟩
      · rw [hev2, hev1, List.append_assoc]
      · refine traceOK_append ?_ hok2 hle1 hle2
        exact traceOK_all_progress hall1 hle1 (le_refl _)

theorem walkDirs_trace (stopAt : Option Nat) (est : Nat)
    (ws : List WalkEntry) : ∀ s : RunState,
    ∃ new, (walkDirs stopAt est ws s).events = s.events ++ new ∧
      s.filesProcessed ≤ (walkDirs stopAt est ws s).filesProcessed ∧
      TraceOK est s.filesProcessed (walkDirs stopAt est ws s).filesProcessed new := by
  induction ws with
  | nil =>
    intro s
    exact ⟨[], by simp [walkDirs], le_refl _, traceOK_nil _ _ _⟩
  | cons w ws ih =>
    intro s
    by_cases hst : stopFlag stopAt s.reads
    · have hred : walkDirs stopAt est (w :: ws) s =
          { s with reads := s.reads + 1, stopObserved := true } := by
        simp [walkDirs, hst]
      rw [hred]
      exact ⟨[], by simp, le_refl _, traceOK_nil _ _ _⟩
    · simp only [walkDirs, hst, Bool.false_eq_true, if_false]
      set s1 : RunState := { s with reads := s.reads + 1 } with hs1
      obtain ⟨new1, hev1, hle1, hok1⟩ := walkFiles_trace stopAt est w.root w.files s1
      obtain ⟨new2, hev2, hle2, hok2⟩ :=
        ih (walkFiles stopAt est w.root w.files s1)
      have hsfp : s1.filesProcessed = s.filesProcessed := rfl
      have hsev : s1.events = s.events := rfl
      rw [hsfp] at hle1 hok1
      refine ⟨new1 ++ new2, ?_, le_trans hle1 hle2, ?_⟩
      · rw [hev2, hev1, hsev, List.append_assoc]
      · exact traceOK_append hok1 hok2 hle1 hle2

theorem walkDrives_trace (stopAt : Option Nat) (est : Nat)
    (ds : List Drive) : ∀ s : RunState,
    ∃ new, (walkDrives stopAt est ds s).events = s.events ++ new ∧
      s.filesProcessed ≤ (walkDrives stopAt est ds s).filesProcessed ∧
      TraceOK est s.filesProcessed (walkDrives stopAt est ds s).filesProcessed new := by
  induction ds with
  | nil =>
    intro s
    exact ⟨[], by simp [walkDrives], le_refl _, traceOK_nil _ _ _⟩
  | cons d ds ih =>
    intro s
    by_cases hst : stopFlag stopAt s.reads
    · have hred : walkDrives stopAt est (d :: ds) s =
          { s with reads := s.reads + 1, stopObserved := true } := by
        simp [walkDrives, hst]
      rw [hred]
      exact ⟨[], by simp, le_refl _, traceOK_nil _ _ _⟩
    · simp only [walkDrives, hst, Bool.false_eq_true, if_false]
      set s2 : RunState :=
        { s with reads := s.reads + 1,
                 events := s.events ++ [driveEvent est s.filesProcessed d.name] } with hs2
      obtain ⟨new1, hev1, hle1, hok1⟩ := walkDirs_trace stopAt est d.walk s2
      obtain ⟨new2, hev2, hle2, hok2⟩ :=
        ih (walkDirs stopAt est d.walk s2)
      have hsfp : s2.filesProcessed = s.filesProcessed := rfl
      have hsev : s2.events = s.events ++ [driveEvent est s.filesProcessed d.name] := rfl
      rw [hsfp] at hle1 hok1
      refine ⟨[driveEvent est s.filesProcessed d.name] ++ (new1 ++ new2), ?_,
        le_trans hle1 hle2, ?_⟩
      · rw [hev2, hev1, hsev, List.append_assoc, List.append_assoc]
      · refine traceOK_append ?_ (traceOK_append hok1 hok2 hle1 hle2)
          (le_refl _) (le_trans hle1 hle2)
        refine ⟨?_, List.pairwise_singleton _ _⟩
        intro e hel
        simp only [List.mem_singleton] at hel
        subst hel
        exact ⟨rfl, le_refl _, le_refl _⟩

/-- The full event trace of a run: the two estimation events, then a
well-formed walking segment, then the terminal event. -/
theorem runBody_trace (db0 : List Row) (drives : List Drive) (stopAt : Option Nat) :
    ∃ new, (runBody db0 drives stopAt).events =
      (initEvents (estimateTotalFiles drives) ++ new) ++
        [finEvent (runBody db0 drives stopAt).filesProcessed] ∧
      TraceOK (estimateTotalFiles drives) 0
        (runBody db0 drives stopAt).filesProcessed new := by
  obtain ⟨new, hev, hle, hok⟩ := walkDrives_trace stopAt (estimateTotalFiles drives) drives
    { reads := 0, filesProcessed := 0, db := db0,
      events := initEvents (estimateTotalFiles drives), stopObserved := false }
  exact ⟨new, by rw [runBody]; rw [hev], hok⟩

theorem finEvent_pct (fp : Nat) : (finEvent fp).pct = 100 := rfl

theorem finEvent_fp (fp : Nat) : (finEvent fp).fp = fp := rfl

theorem initEvents_fields (est : Nat) :
    ∀ e ∈ initEvents est, e.pct = 0 ∧ e.fp = 0 := by
  intro e he
  simp only [initEvents, List.mem_cons, List.mem_singleton, List.not_mem_nil,
    or_false] at he
  rcases he with rfl | rfl <;> exact ⟨rfl, rfl⟩

/-- C1 fails as stated: the claim says 100 is never emitted after
cancellation, but a session cancelled before its first checkpoint (here
`stop()` takes effect before any flag read) still observes the stop and still
emits the terminal event with percentage 100, having processed no file. -/
theorem c1_cancelled_run_emits_100 :
    (runBody [] [oneFileDrive] (some 0)).stopObserved = true ∧
    (runBody [] [oneFileDrive] (some 0)).events.getLast?.map (fun e => e.pct) =
      some 100 ∧
    (runBody [] [oneFileDrive] (some 0)).filesProcessed = 0 := by
  refine ⟨by decide, by decide, by decide⟩

/-- C1 (amended).  Every event before the terminal one carries percentage
`min(99, floor(processedFiles / estimatedTotalFiles * 100))` evaluated at the
`files_processed` value it was emitted with (hence at most 99), and every
session — completed or cancelled — ends with exactly one terminal event whose
percentage is 100 (cancellation stops periodic emission but not the terminal
event). -/
theorem c1_progress_formula_and_terminal (db0 : List Row) (drives : List Drive)
    (stopAt : Option Nat) :
    ∃ evs, (runBody db0 drives stopAt).events =
        evs ++ [finEvent (runBody db0 drives stopAt).filesProcessed] ∧
      (∀ e ∈ evs, e.pct = getPercentage (estimateTotalFiles drives) e.fp ∧
        e.pct ≤ 99) ∧
      (finEvent (runBody db0 drives stopAt).filesProcessed).pct = 100 := by
  obtain ⟨new, hev, hok⟩ := runBody_trace db0 drives stopAt
  refine ⟨initEvents (estimateTotalFiles drives) ++ new, hev, ?_, rfl⟩
  intro e hel
  rcases List.mem_append.mp hel with h | h
  · obtain ⟨hp, hf⟩ := initEvents_fields _ e h
    constructor
    · rw [hp, hf, getPercentage_zero]
    · rw [hp]; omega
  · have he := hok.1 e h
    constructor
    · exact he.1
    · rw [he.1]; exact getPercentage_le_99 _ _

theorem c1_progress_formula_witness :
    ∃ evs, (runBody [] [oneFileDrive] none).events =
        evs ++ [finEvent (runBody [] [oneFileDrive] none).filesProcessed] ∧
      (∀ e ∈ evs, e.pct = getPercentage (estimateTotalFiles [oneFileDrive]) e.fp ∧
        e.pct ≤ 99) ∧
      (finEvent (runBody [] [oneFileDrive] none).filesProcessed).pct = 100 :=
  c1_progress_formula_and_terminal [] [oneFileDrive] none

/-- C5.  Within any single session the `files_processed` values observed
across successive progress events are non-decreasing, the reported
percentages are non-decreasing, every event before the terminal one reports
at most 99, and the terminal event reports exactly 100. -/
theorem c5_monotone_progress (db0 : List Row) (drives : List Drive)
    (stopAt : Option Nat) :
    List.Pairwise (fun a b => a.fp ≤ b.fp) (runBody db0 drives stopAt).events ∧
    List.Pairwise (fun a b => a.pct ≤ b.pct) (runBody db0 drives stopAt).events ∧
    ∃ evs, (runBody db0 drives stopAt).events =
        evs ++ [finEvent (runBody db0 drives stopAt).filesProcessed] ∧
      (∀ e ∈ evs, e.pct ≤ 99) ∧
      (finEvent (runBody db0 drives stopAt).filesProcessed).pct = 100 := by
  obtain ⟨new, hev, hok⟩ := runBody_trace db0 drives stopAt
  have hnew := hok.1
  have hpw := hok.2
  have hinitpw : ∀ (R : ProgressEvent → ProgressEvent → Prop),
      (∀ a b, a.pct = 0 → a.fp = 0 → R a b) →
      List.Pairwise R (initEvents (estimateTotalFiles drives)) := by
    intro R hR
    refine List.pairwise_of_forall_mem_list ?_
    intro a ha b _
    obtain ⟨hp, hf⟩ := initEvents_fields _ a ha
    exact hR a b hp hf
  constructor
  · rw [hev, List.pairwise_append]
    refine ⟨?_, List.pairwise_singleton _ _, ?_⟩
    · rw [List.pairwise_append]
      refine ⟨hinitpw _ (fun a b _ hf => by rw [hf]; exact Nat.zero_le _), hpw, ?_⟩
      intro a ha b _
      rw [(initEvents_fields _ a ha).2]
      exact Nat.zero_le _
    · intro a ha b hb
      simp only [List.mem_singleton] at hb
      subst hb
      rw [finEvent_fp]
      rcases List.mem_append.mp ha with h | h
      · rw [(initEvents_fields _ a h).2]; exact Nat.zero_le _
      · exact (hnew a h).2.2
  constructor
  · rw [hev, List.pairwise_append]
    refine ⟨?_, List.pairwise_singleton _ _, ?_⟩
    · rw [List.pairwise_append]
      refine ⟨hinitpw _ (fun a b hp _ => by rw [hp]; exact Nat.zero_le _), ?_, ?_⟩
      · refine hpw.imp_of_mem ?_
        intro a b ha hb hfp
        rw [(hnew a ha).1, (hnew b hb).1]
        exact getPercentage_mono _ hfp
      · intro a ha b _
        rw [(initEvents_fields _ a ha).1]
        exact Nat.zero_le _
    · intro a ha b hb
      simp only [List.mem_singleton] at hb
      subst hb
      rw [finEvent_pct]
      rcases List.mem_append.mp ha with h | h
      · rw [(initEvents_fields _ a h).1]; omega
      · rw [(hnew a h).1]
        have := getPercentage_le_99 (estimateTotalFiles drives) a.fp
        omega
  · refine ⟨initEvents (estimateTotalFiles drives) ++ new, hev, ?_, rfl⟩
    intro e hel
    rcases List.mem_append.mp hel with h | h
    · rw [(initEvents_fields _ e h).1]; omega
    · rw [(hnew e h).1]; exact getPercentage_le_99 _ _

theorem c5_monotone_progress_witness :
    List.Pairwise (fun a b => a.fp ≤ b.fp) (runBody [] [oneFileDrive] none).events ∧
    List.Pairwise (fun a b => a.pct ≤ b.pct)
      (runBody [] [oneFileDrive] none).events ∧
    ∃ evs, (runBody [] [oneFileDrive] none).events =
        evs ++ [finEvent (runBody [] [oneFileDrive] none).filesProcessed] ∧
      (∀ e ∈ evs, e.pct ≤ 99) ∧
      (finEvent (runBody [] [oneFileDrive] none).filesProcessed).pct = 100 :=
  c5_monotone_progress [] [oneFileDrive] none

/- ------------------------------------------------------------------ -/
/- Ordering: lexLt agrees with the String order (C3).                 -/
/- ------------------------------------------------------------------ -/

theorem lexLt_iff (as : List Char) : ∀ bs : List Char,
    lexLt as bs = true ↔ List.Lex (· < ·) as bs := by
  induction as with
  | nil =>
    intro bs
    cases bs with
    | nil => exact ⟨fun h => by simp [lexLt] at h, fun h => nomatch h⟩
    | cons b bs => exact ⟨fun _ => List.Lex.nil, fun _ => rfl⟩
  | cons a as ih =>
    intro bs
    cases bs with
    | nil => exact ⟨fun h => by simp [lexLt] at h, fun h => nomatch h⟩
    | cons b bs =>
      simp only [lexLt, Bool.or_eq_true, Bool.and_eq_true, decide_eq_true_eq,
        beq_iff_eq, ih bs]
      constructor
      · rintro (h | ⟨rfl, h⟩)
        · exact List.Lex.rel h
        · exact List.Lex.cons h
      · intro h
        cases h with
        | rel h => exact Or.inl h
        | cons h => exact Or.inr ⟨rfl, h⟩

theorem lexLt_iff_lt (s t : String) : lexLt s.toList t.toList = true ↔ s < t := by
  rw [String.lt_iff_toList_lt]
  exact lexLt_iff s.toList t.toList

theorem mem_insertByName (r x : Row) : ∀ l : List Row,
    x ∈ insertByName r l ↔ x = r ∨ x ∈ l := by
  intro l
  induction l with
  | nil => simp [insertByName]
  | cons y ys ih =>
    simp only [insertByName]
    split
    · rw [List.mem_cons, ih, List.mem_cons]
      tauto
    · simp

theorem sorted_insertByName (r : Row) : ∀ l : List Row,
    List.Pairwise (fun a b => a.name ≤ b.name) l →
    List.Pairwise (fun a b => a.name ≤ b.name) (insertByName r l) := by
  intro l
  induction l with
  | nil => exact fun _ => List.pairwise_singleton _ _
  | cons x xs ih =>
    intro h
    rw [List.pairwise_cons] at h
    obtain ⟨hx, hxs⟩ := h
    simp only [insertByName]
    split
    · rename_i hlt
      rw [List.pairwise_cons]
      refine ⟨?_, ih hxs⟩
      intro y hy
      rcases (mem_insertByName r y xs).mp hy with rfl | hy'
      · exact le_of_lt ((lexLt_iff_lt _ _).mp hlt)
      · exact hx y hy'
    · rename_i hlt
      have hrle : r.name ≤ x.name :=
        le_of_not_lt (fun hc => hlt ((lexLt_iff_lt _ _).mpr hc))
      rw [List.pairwise_cons]
      refine ⟨?_, List.pairwise_cons.mpr ⟨hx, hxs⟩⟩
      intro y hy
      rcases List.mem_cons.mp hy with rfl | hy'
      · exact hrle
      · exact le_trans hrle (hx y hy')

theorem sorted_sortByName (l : List Row) :
    List.Pairwise (fun a b => a.name ≤ b.name) (sortByName l) := by
  induction l with
  | nil => exact List.Pairwise.nil
  | cons r rs ih => exact sorted_insertByName r (sortByName rs) ih

/- ------------------------------------------------------------------ -/
/- LIKE matching vs case-insensitive containment (C3).                -/
/- ------------------------------------------------------------------ -/

theorem isPrefixOf_eq_iff (q : List Char) : ∀ t : List Char,
    q.isPrefixOf t = true ↔ ∃ r, t = q ++ r := by
  induction q with
  | nil =>
    intro t
    simp [List.isPrefixOf]
  | cons a as ih =>
    intro t
    cases t with
    | nil =>
      constructor
      · intro h; simp [List.isPrefixOf] at h
      · rintro ⟨r, hr⟩; simp at hr
    | cons b bs =>
      simp only [List.isPrefixOf, Bool.and_eq_true, beq_iff_eq, ih bs,
        List.cons_append, List.cons.injEq]
      constructor
      · rintro ⟨rfl, r, rfl⟩
        exact ⟨r, rfl, rfl⟩
      · rintro ⟨r, hb, hbs⟩
        exact ⟨hb.symm, r, hbs⟩

theorem likeMatch_tails (ps t : List Char) :
    likeMatch ('%' :: ps) t = t.tails.any (fun su => likeMatch ps su) := by
  simp [likeMatch]

theorem likeMatch_pct_nil (t : List Char) : likeMatch ['%'] t = true := by
  rw [likeMatch_tails, List.any_eq_true]
  exact ⟨[], (List.mem_tails _ _).mpr List.nil_suffix, rfl⟩

theorem likeMatch_literal (ps : List Char) : ∀ q : List Char, '%' ∉ q → '_' ∉ q →
    ∀ t : List Char,
    (likeMatch (q ++ ps) t = true ↔
      ∃ m r, t = m ++ r ∧ m.map Char.toLower = q.map Char.toLower ∧
        likeMatch ps r = true) := by
  intro q
  induction q with
  | nil =>
    intro _ _ t
    simp only [List.nil_append, List.map_nil]
    constructor
    · intro h
      exact ⟨[], t, rfl, rfl, h⟩
    · rintro ⟨m, r, rfl, hm, h⟩
      rw [List.map_eq_nil_iff] at hm
      subst hm
      simpa using h
  | cons c q ih =>
    intro hp hu t
    have hc1 : c ≠ '%' := fun hh => hp (hh ▸ List.mem_cons_self _ _)
    have hc2 : c ≠ '_' := fun hh => hu (hh ▸ List.mem_cons_self _ _)
    have hp' : '%' ∉ q := fun hh => hp (List.mem_cons_of_mem _ hh)
    have hu' : '_' ∉ q := fun hh => hu (List.mem_cons_of_mem _ hh)
    cases t with
    | nil =>
      constructor
      · intro h
        rw [List.cons_append] at h
        simp [likeMatch, hc1] at h
      · rintro ⟨m, r, hmr, hm, _⟩
        have hm0 : m = [] := by
          cases m with
          | nil => rfl
          | cons z zs => simp at hmr
        subst hm0
        simp at hm
    | cons d ts =>
      rw [List.cons_append]
      simp only [likeMatch, if_neg hc1, if_neg hc2, Bool.and_eq_true, beq_iff_eq,
        ih hp' hu' ts, List.map_cons]
      constructor
      · rintro ⟨hlow, m', r, rfl, hm', hps⟩
        refine ⟨d :: m', r, rfl, ?_, hps⟩
        rw [List.map_cons, hm', hlow]
      · rintro ⟨m, r, hmr, hm, hps⟩
        cases m with
        | nil => simp at hm
        | cons d' m' =>
          rw [List.cons_append, List.cons.injEq] at hmr
          obtain ⟨rfl, rfl⟩ := hmr
          rw [List.map_cons, List.cons.injEq] at hm
          exact ⟨hm.1.symm, m', r, rfl, hm.2, hps⟩

theorem likeMatch_contains (q t : List Char) (h1 : '%' ∉ q) (h2 : '_' ∉ q) :
    likeMatch ('%' :: (q ++ ['%'])) t = containsCI q t := by
  rw [Bool.eq_iff_iff, likeMatch_tails, List.any_eq_true]
  unfold containsCI
  rw [List.any_eq_true]
  constructor
  · rintro ⟨su, hsu, hmatch⟩
    rw [List.mem_tails] at hsu
    obtain ⟨a, ha⟩ := hsu
    obtain ⟨m, r, hsur, hm, _⟩ := (likeMatch_literal ['%'] q h1 h2 su).mp hmatch
    refine ⟨q.map Char.toLower ++ r.map Char.toLower, ?_, ?_⟩
    · rw [List.mem_tails]
      refine ⟨a.map Char.toLower, ?_⟩
      rw [← ha, hsur]
      simp [hm]
    · rw [isPrefixOf_eq_iff]
      exact ⟨r.map Char.toLower, rfl⟩
  · rintro ⟨su', hsu', hpre⟩
    rw [List.mem_tails] at hsu'
    obtain ⟨a', ha'⟩ := hsu'
    rw [isPrefixOf_eq_iff] at hpre
    obtain ⟨b', hb'⟩ := hpre
    have hsplit : t.map Char.toLower = a' ++ (q.map Char.toLower ++ b') := by
      rw [← ha', hb']
    rw [List.map_eq_append_iff] at hsplit
    obtain ⟨t1, t2, rfl, hm1, hm2⟩ := hsplit
    rw [List.map_eq_append_iff] at hm2
    obtain ⟨m, r, rfl, hmq, hmb⟩ := hm2
    refine ⟨m ++ r, ?_, ?_⟩
    · rw [List.mem_tails]
      exact ⟨t1, rfl⟩
    · rw [likeMatch_literal ['%'] q h1 h2 (m ++ r)]
      exact ⟨m, r, rfl, hmq, likeMatch_pct_nil r⟩

/-- C3 (amended).  For every non-empty fragment free of the LIKE wildcard
characters `%` and `_`, the query returns the first 100 — in ascending
(BINARY-collation) name order, ties in store row order — of exactly the rows
whose name contains the fragment ASCII-case-insensitively (matched against
`name` only); the result is sorted ascending by name and never exceeds 100
rows. -/
theorem c3_query_exact_sorted_bounded (db : List Row) (q : String)
    (_h0 : q ≠ "") (h1 : '%' ∉ q.toList) (h2 : '_' ∉ q.toList) :
    sqliteQuery db q =
      ((sortByName (db.filter (fun r => specContainsCI q r.name))).take 100).map
        (fun r => (r.name, r.path, r.type)) ∧
    List.Pairwise (fun a b => a.1 ≤ b.1) (sqliteQuery db q) ∧
    (sqliteQuery db q).length ≤ 100 := by
  have hfilter :
      db.filter (fun r => likeMatch (("%" ++ q ++ "%").toList) r.name.toList) =
      db.filter (fun r => specContainsCI q r.name) := by
    apply List.filter_congr
    intro r _
    exact likeMatch_contains q.toList r.name.toList h1 h2
  refine ⟨?_, ?_, ?_⟩
  · simp only [sqliteQuery]
    rw [hfilter]
  · simp only [sqliteQuery]
    rw [List.pairwise_map]
    exact List.Pairwise.sublist (List.take_sublist _ _) (sorted_sortByName _)
  · simp only [sqliteQuery]
    rw [List.length_map, List.length_take]
    exact min_le_left _ _

theorem c3_query_witness :
    sqliteQuery exampleStore "invoice" =
      ((sortByName (exampleStore.filter
          (fun r => specContainsCI "invoice" r.name))).take 100).map
        (fun r => (r.name, r.path, r.type)) ∧
    List.Pairwise (fun a b => a.1 ≤ b.1) (sqliteQuery exampleStore "invoice") ∧
    (sqliteQuery exampleStore "invoice").length ≤ 100 :=
  c3_query_exact_sorted_bounded exampleStore "invoice" (by decide) (by decide)
    (by decide)
